import Mathlib

/-!
Verification of the yaegi interpreter core (file interp/interp.go of the
repository, plus its command-line driver) against its natural-language
specification. We use a shallow embedding: the pure string functions are
translated directly; the stateful entry points (EvalWithContext, stop, Use,
the REPL preimport loop) are translated to explicit state passing over a
record of the interpreter fields they touch; goroutine races are reduced to
an explicit parameter saying which event fired first; reflect.Value is
abstracted to a small inductive of tagged values.
-/

set_option maxHeartbeats 1000000

namespace Yaegi

/-- Abstract model of a Go reflect.Value as stored in the interpreter and in
the binary package registry. `zero` models the invalid zero value
reflect.Value\x7b\x7d returned on cancellation; `host` models a value registered
from the host; `virt` models a value substituted by fixStdio to bind the
interpreter configured streams. Tags identify concrete values. -/
inductive Value where
  | zero : Value
  | host (tag : String) : Value
  | virt (tag : String) : Value
deriving DecidableEq

/-- Model of reflect.Value.IsValid: only the zero value is invalid. -/
def Value.isValid : Value → Bool
  | Value.zero => false
  | _ => true

/-- Rendering of a value by the fmt package, used by the REPL prompt. -/
def showValue : Value → String
  | Value.zero => "<invalid reflect.Value>"
  | Value.host tag => tag
  | Value.virt tag => tag

/-- Model of context error values (returned by ctx.Err once the context is done). -/
inductive CtxErr where
  | canceled : CtxErr
  | deadlineExceeded : CtxErr
deriving DecidableEq

/-- Errors returned by the evaluator: a recovered Panic record (value,
host call-stack addresses from runtime.Callers, raw stack buffer from
debug.Stack), a context cancellation error, a scanner error list, or any
other error. -/
inductive EvalError where
  | panic (value : Value) (callers : List Nat) (stack : List Nat) : EvalError
  | ctx (e : CtxErr) : EvalError
  | scanErrs (msgs : List String) : EvalError
  | other (msg : String) : EvalError
deriving DecidableEq

/-- Whether an error is of the Panic type (a Go type assertion err.(Panic)). -/
def EvalError.isPanic : EvalError → Bool
  | EvalError.panic _ _ _ => true
  | _ => false

/-- The payload carried by a Panic error, when the error is one. -/
def panicPayload : EvalError → Option (Value × List Nat × List Nat)
  | EvalError.panic v cs st => some (v, cs, st)
  | _ => none

/-! ### interp.ignoreScannerError and the REPL scanner-error decision -/

/-- Translation of func ignoreScannerError(e *scanner.Error, s string) bool,
with msg standing for e.Msg. -/
def ignoreScannerError (msg s : String) : Bool :=
  if msg.endsWith "found \x27EOF\x27" then true
  else if msg = "raw string literal not terminated" then true
  else if msg.startsWith "expected operand, found \x27\x7d\x27" && !(s.endsWith "\x7d") then true
  else false

/-- The incomplete-input signatures as the specification words them: the
message ends with found EOF, equals raw string literal not terminated, or
starts with expected operand, found a closing brace, while the line does
not end in a closing brace. -/
def incompleteInputSig (msg s : String) : Prop :=
  msg.endsWith "found \x27EOF\x27" = true ∨
  msg = "raw string literal not terminated" ∨
  (msg.startsWith "expected operand, found \x27\x7d\x27" = true ∧ s.endsWith "\x7d" = false)

/-- The two possible reactions of the REPL loop to a scanner error list. -/
inductive ReplAction where
  | continueReading : ReplAction
  | reportFirst : ReplAction
deriving DecidableEq

/-- Translation of the scanner.ErrorList branch of the REPL loop: given the
message of the first error e[0] and the last line read, the REPL continues
reading when ignoreScannerError(e[0], line) holds, otherwise it reports the
first error. -/
def replScanAction (firstMsg line : String) : ReplAction :=
  if ignoreScannerError firstMsg line then ReplAction.continueReading
  else ReplAction.reportFirst

/-! ### Interpreter state, New, EvalWithContext, stop -/

/-- The interpreter fields relevant to run cancellation and to the
creation-time option flags: the atomic run-id counter, whether the done
channel has been closed, the cancelChan flag, and the opt booleans read
from the environment by New. -/
structure InterpState where
  id : Nat
  doneClosed : Bool
  cancelChan : Bool
  noRun : Bool
  astDot : Bool
  cfgDot : Bool
  fastChan : Bool
deriving DecidableEq

/-- Translation of strconv.ParseBool: the twelve accepted literals, error
otherwise. -/
def parseBool (s : String) : Option Bool :=
  if s = "1" ∨ s = "t" ∨ s = "T" ∨ s = "true" ∨ s = "TRUE" ∨ s = "True" then some true
  else if s = "0" ∨ s = "f" ∨ s = "F" ∨ s = "false" ∨ s = "FALSE" ∨ s = "False" then some false
  else none

/-- The pattern v, _ = strconv.ParseBool(s) used by New: on a parse error the
zero value false is kept. -/
def parseBoolDefaultFalse (s : String) : Bool :=
  (parseBool s).getD false

/-- Translation of the option-relevant part of func New(options Options):
each boolean option is read from the environment (getenv models os.Getenv),
id starts at zero, the done channel is not yet created and cancelChan is the
zero value false. -/
def New (getenv : String → String) : InterpState :=
  { id := 0
    doneClosed := false
    cancelChan := false
    noRun := parseBoolDefaultFalse (getenv "YAEGI_NO_RUN")
    astDot := parseBoolDefaultFalse (getenv "YAEGI_AST_DOT")
    cfgDot := parseBoolDefaultFalse (getenv "YAEGI_CFG_DOT")
    fastChan := parseBoolDefaultFalse (getenv "YAEGI_FAST_CHAN") }

/-- Translation of the entry sequence of EvalWithContext: interp.done is
reassigned to a fresh open channel and interp.cancelChan is set to the
negation of the fastChan option. -/
def evalWithContextEntry (st : InterpState) : InterpState :=
  { st with doneClosed := false, cancelChan := !st.fastChan }

/-- Translation of func (interp *Interpreter) stop(): atomically increment
the run-id and close the done channel. -/
def stop (st : InterpState) : InterpState :=
  { st with id := st.id + 1, doneClosed := true }

/-- Which of the two events of the select in EvalWithContext fires first:
the context done channel or the completion of the Eval goroutine. -/
inductive RaceWinner where
  | ctxDone : RaceWinner
  | evalDone : RaceWinner
deriving DecidableEq

/-- Translation of func (interp *Interpreter) EvalWithContext(ctx, src):
after the entry sequence, either the context fires first, in which case
stop is called and the zero value is returned with ctx.Err(), or the eval
goroutine finishes first and its result and error are returned.
evalRes stands for the result of interp.Eval(src) and ce for ctx.Err(). -/
def EvalWithContext (st : InterpState) (w : RaceWinner)
    (evalRes : Value × Option EvalError) (ce : CtxErr) :
    Value × Option EvalError × InterpState :=
  let st1 := evalWithContextEntry st
  match w with
  | RaceWinner.ctxDone => (Value.zero, some (EvalError.ctx ce), stop st1)
  | RaceWinner.evalDone => (evalRes.1, evalRes.2, st1)

/-! ### The recover wrapper of eval -/

/-- Outcome of running the body of eval (parse, analysis, execution): either
it completes with a value, or somewhere a panic with a recovered value is
raised. -/
inductive ExecOutcome where
  | ok (v : Value) : ExecOutcome
  | panicked (r : Value) : ExecOutcome
deriving DecidableEq

/-- Translation of the deferred recover wrapper of
func (interp *Interpreter) eval: if recover returns a value r, the named
error result is set to Panic\x7bValue: r, Callers: pc[:n], Stack: debug.Stack()\x7d
and the named value result keeps its zero value; otherwise the body results
are returned unchanged. callers and stack stand for the data captured by
runtime.Callers and debug.Stack at the recovery point. -/
def evalTop : ExecOutcome → List Nat → List Nat → Value × Option EvalError
  | ExecOutcome.ok v, _, _ => (v, none)
  | ExecOutcome.panicked r, callers, stack =>
      (Value.zero, some (EvalError.panic r callers stack))

/-! ### The phase structure of eval -/

/-- The phases of func (interp *Interpreter) eval that the NO_RUN claim
distinguishes: parsing, AST dot rendering, global type analysis, CFG
construction, the setExec call that generates executor closures for the
root CFG when the root is not a file statement (the source comment says the
REPL may skip the package statement), CFG dot rendering, executor closure
generation for declared functions (genRun), and execution (run of root,
global vars and init nodes). -/
inductive Phase where
  | parseP : Phase
  | astDotP : Phase
  | gtaP : Phase
  | cfgP : Phase
  | setExecP : Phase
  | cfgDotP : Phase
  | genRunP : Phase
  | execP : Phase
deriving DecidableEq

/-- Translation of the control flow of func (interp *Interpreter) eval as
the ordered list of phases it performs before returning: parse (return on
error), render the AST when astDot is set and return right there when noRun
is also set, global type analysis (return on error), CFG construction
(on error render the CFG dot when cfgDot is set, then return), the
setExec(root.start) call when the root kind is not fileStmt, CFG dot
rendering when cfgDot is set, then return when noRun is set, else generate
executor closures with genRun and execute. fileRoot says whether the root
kind is fileStmt; parseOk, gtaOk and cfgOk say whether the corresponding
stage succeeds. -/
def evalPhases (st : InterpState) (fileRoot parseOk gtaOk cfgOk : Bool) : List Phase :=
  if !parseOk then [Phase.parseP]
  else [Phase.parseP] ++
    (if st.astDot then [Phase.astDotP] else []) ++
    (if st.astDot && st.noRun then []
     else if !gtaOk then [Phase.gtaP]
     else [Phase.gtaP] ++
       (if !cfgOk then [Phase.cfgP] ++ (if st.cfgDot then [Phase.cfgDotP] else [])
        else [Phase.cfgP] ++ (if !fileRoot then [Phase.setExecP] else []) ++
          (if st.cfgDot then [Phase.cfgDotP] else []) ++
          (if st.noRun then [] else [Phase.genRunP, Phase.execP])))

/-! ### getPrompt -/

/-- The properties of the REPL input stream that getPrompt inspects: whether
it implements the Stat interface, whether Stat succeeds, and whether the
file mode has the character device bit set. -/
structure InStream where
  hasStat : Bool
  statOk : Bool
  isCharDevice : Bool
deriving DecidableEq

/-- The terminal test of getPrompt: the input implements Stat, Stat returns
no error, and the mode has the character device bit. -/
def isTerminal (stream : InStream) : Bool :=
  stream.hasStat && stream.statOk && stream.isCharDevice

/-- Translation of func getPrompt(in, out): the string written to the output
writer on each prompt call. On a terminal, a valid value v prints a line
": v" followed by the prompt "> "; an invalid value prints only the prompt;
on a non-terminal nothing is printed. -/
def promptFn (stream : InStream) (v : Value) : String :=
  if isTerminal stream then
    (if v.isValid then ": " ++ showValue v ++ "\n" else "") ++ "> "
  else ""

/-! ### The command-line driver: shebang rewriting and exit codes -/

/-- Prefix test on character lists, as strings.HasPrefix does on the bytes
of a Go string. -/
def hasPrefixCL : List Char → List Char → Bool
  | _, [] => true
  | [], _ :: _ => false
  | c :: cs, p :: ps => c == p && hasPrefixCL cs ps

/-- Translation of strings.Replace(s, pat, rep, 1): replace the first
occurrence of pat in s by rep; with an empty pat, rep is inserted at the
start. -/
def replaceFirstCL : List Char → List Char → List Char → List Char
  | [], pat, rep => if pat.isEmpty then rep else []
  | c :: cs, pat, rep =>
    if hasPrefixCL (c :: cs) pat then rep ++ (c :: cs).drop pat.length
    else c :: replaceFirstCL cs pat rep

/-- The shebang marker. -/
def shebangCL : List Char := ['#', '!']

/-- The line comment marker. -/
def lineCommentCL : List Char := ['/', '/']

/-- Translation of the source preprocessing of the driver main: the two
leading bytes are inspected (none models the index-out-of-range panic of
s[:2] on a shorter file); when they are the shebang marker, the first
occurrence of it, which is that very prefix, is replaced by a line comment
marker before the source is passed to Eval. -/
def driverLoadSource (s : List Char) : Option (List Char) :=
  if s.length < 2 then none
  else if hasPrefixCL s shebangCL then some (replaceFirstCL s shebangCL lineCommentCL)
  else some s

/-- Translation of the exit behaviour of the driver main: with file
arguments, an unreadable file reaches log.Fatal, which exits with code 1; a
readable file of fewer than two bytes makes the shebang inspection panic
with an index out of range, and the runtime exits a process with status 2
on an unrecovered panic; otherwise main runs to completion and the process
exits with code 0, an evaluation error being only printed. Without
arguments the REPL runs and main then exits with code 0. content is the
file content when the read succeeds. -/
def driverExitCode (hasArgs readOk : Bool) (content : List Char)
    (_evalOk _interactive : Bool) : Nat :=
  if hasArgs then
    if !readOk then 1
    else
      match driverLoadSource content with
      | none => 2
      | some _ => 0
  else 0

/-! ### Association lists modelling the Go maps of the interpreter -/

/-- Lookup in an association list, modelling Go map indexing m[k] (keys are
kept unique by alistInsert, mirroring Go map semantics). -/
def alistLookup {α : Type} : List (String × α) → String → Option α
  | [], _ => none
  | (k0, a0) :: rest, k => if k0 = k then some a0 else alistLookup rest k

/-- Insertion in an association list, modelling Go map assignment m[k] = a:
replace the binding when the key is present, append it otherwise. -/
def alistInsert {α : Type} : List (String × α) → String → α → List (String × α)
  | [], k, a => [(k, a)]
  | (k0, a0) :: rest, k, a =>
    if k0 = k then (k, a) :: rest else (k0, a0) :: alistInsert rest k a

/-- The keys of an association list are pairwise distinct, as Go map key
sets are. -/
abbrev keysNodup {α : Type} (l : List (String × α)) : Prop :=
  (l.map Prod.fst).Nodup

/-- First-defined choice on options, used to state merge results. -/
def optOr {α : Type} : Option α → Option α → Option α
  | some x, _ => some x
  | none, b => b

/-- Translation of the merge loop of Use: for s, sym := range v, write
m[s] = sym into an existing symbol map m. -/
def mergeSyms (m v : List (String × Value)) : List (String × Value) :=
  v.foldl (fun acc sv => alistInsert acc sv.1 sv.2) m

/-- The interpreter state touched by Use: the binary package registry
binPkg (package path to symbol map) and the hooks accumulated by
interp.hooks.Parse. -/
structure UseState where
  binPkg : List (String × List (String × Value))
  hooksParsed : List (List (String × Value))
deriving DecidableEq

/-- Modelled from the spec: the constant hooksPath is declared outside the
provided source file; the Use code only compares package paths against it
and diverts the matching entry to hook parsing, so only its identity as a
distinguished path matters. -/
def hooksPath : String := "github.com/containous/yaegi/interp/hooks"

/-- Translation of one iteration of the loop of
func (interp *Interpreter) Use(values Exports): an entry under the hooks
path is handed to interp.hooks.Parse (modelled as accumulation) and skipped;
any other entry has its symbol map merged into the registry, a missing
package map being created first. -/
def useEntry (st : UseState) (kv : String × List (String × Value)) : UseState :=
  if kv.1 = hooksPath then { st with hooksParsed := st.hooksParsed ++ [kv.2] }
  else { st with binPkg := alistInsert st.binPkg kv.1 (mergeSyms ((alistLookup st.binPkg kv.1).getD []) kv.2) }

/-- The fmt symbols redefined by fixStdio to write to the interpreter
configured streams. -/
def fmtFixedSyms : List (String × Value) :=
  [("Print", Value.virt "fmt.Print"), ("Printf", Value.virt "fmt.Printf"),
   ("Println", Value.virt "fmt.Println"), ("Scan", Value.virt "fmt.Scan"),
   ("Scanf", Value.virt "fmt.Scanf"), ("Scanln", Value.virt "fmt.Scanln")]

/-- The flag symbol redefined by fixStdio. -/
def flagFixedSyms : List (String × Value) :=
  [("CommandLine", Value.virt "flag.CommandLine")]

/-- The log symbols redefined by fixStdio (the Fatal family is restricted
to the Panic family of an interpreter-bound logger). -/
def logFixedSyms : List (String × Value) :=
  [("Fatal", Value.virt "log.Panic"), ("Fatalf", Value.virt "log.Panicf"),
   ("Fatalln", Value.virt "log.Panicln"), ("Flags", Value.virt "log.Flags"),
   ("Output", Value.virt "log.Output"), ("Panic", Value.virt "log.Panic"),
   ("Panicf", Value.virt "log.Panicf"), ("Panicln", Value.virt "log.Panicln"),
   ("Prefix", Value.virt "log.Prefix"), ("Print", Value.virt "log.Print"),
   ("Printf", Value.virt "log.Printf"), ("Println", Value.virt "log.Println"),
   ("SetFlags", Value.virt "log.SetFlags"), ("SetOutput", Value.virt "log.SetOutput"),
   ("SetPrefix", Value.virt "log.SetPrefix"), ("Writer", Value.virt "log.Writer")]

/-- The os symbols redefined by fixStdio. -/
def osFixedSyms : List (String × Value) :=
  [("Stdin", Value.virt "os.Stdin"), ("Stdout", Value.virt "os.Stdout"),
   ("Stderr", Value.virt "os.Stderr")]

/-- One package fixup of fixStdio: when the package is registered, its map
receives the redefined symbols; an unregistered package is left alone. -/
def fixPkg (bp : List (String × List (String × Value))) (pkg : String)
    (syms : List (String × Value)) : List (String × List (String × Value)) :=
  match alistLookup bp pkg with
  | none => bp
  | some p => alistInsert bp pkg (mergeSyms p syms)

/-- Translation of func fixStdio(interp): nothing happens when fmt is not
registered; otherwise the stream-bound symbols of fmt, flag, log and os are
redefined in the registry. -/
def fixStdio (st : UseState) : UseState :=
  match alistLookup st.binPkg "fmt" with
  | none => st
  | some _ =>
    { st with binPkg :=
        fixPkg (fixPkg (fixPkg (fixPkg st.binPkg "fmt" fmtFixedSyms)
          "flag" flagFixedSyms) "log" logFixedSyms) "os" osFixedSyms }

/-- Translation of func (interp *Interpreter) Use(values Exports): every
entry is processed by the merge loop, then fixStdio runs when the input
map contains the well-known path fmt. -/
def Use (st : UseState) (values : List (String × List (String × Value))) : UseState :=
  let st1 := values.foldl useEntry st
  if values.any (fun kv => kv.1 == "fmt") then fixStdio st1 else st1

/-- Two-level registry lookup binPkg[k][s]. -/
def lookupSym (bp : List (String × List (String × Value))) (k s : String) : Option Value :=
  (alistLookup bp k).bind (fun p => alistLookup p s)

/-- A registry holding a host log.Print symbol, used to exhibit the
fixStdio side effect of Use. -/
def c9Registry : UseState :=
  { binPkg := [("log", [("Print", Value.host "log.Print")])], hooksParsed := [] }

/-! ### REPL preimport of binary packages -/

/-- Identifier start characters (letter or underscore). -/
def isIdentStart (c : Char) : Bool := c.isAlpha || c = '_'

/-- Identifier continuation characters (letter, digit or underscore). -/
def isIdentCont (c : Char) : Bool := c.isAlpha || c.isDigit || c = '_'

/-- Modelled from the spec: the package-name regexp identifier used by the
REPL preimport loop is declared outside the provided source file; it
extracts the identifier base name ending the package path (the longest
trailing run of identifier characters, trimmed of leading digits), or the
empty string when the path yields no valid identifier. -/
def identBase (path : String) : String :=
  let t := (path.toList.reverse.takeWhile isIdentCont).reverse
  String.mk (t.dropWhile (fun c => !(isIdentStart c)))

/-- Universe scope symbols as the preimport loop sees them: a binary
package symbol carrying its import path, or anything else. -/
inductive UnivSym where
  | pkgSym (path : String) : UnivSym
  | other (tag : String) : UnivSym
deriving DecidableEq

/-- The ambiguous base names that the REPL preimport loop skips. -/
def replSkipNames : List String := ["rand", "scanner", "template", "pprof"]

/-- The preimport decision for one registered package path: none when the
base name is empty or one of the skipped ambiguous names, otherwise the
universe-scope name under which the package is preimported. -/
def goodReplName (path : String) : Option String :=
  let n := identBase path
  if n = "" ∨ n ∈ replSkipNames then none else some n

/-- One iteration of the preimport loop of REPL: skip an invalid or
ambiguous name, otherwise bind the name in the universe scope to a binary
package symbol carrying the path. -/
def replPreimportStep (acc : List (String × UnivSym)) (k : String) :
    List (String × UnivSym) :=
  match goodReplName k with
  | none => acc
  | some n => alistInsert acc n (UnivSym.pkgSym k)

/-- Translation of the preimport loop at the entry of
func (interp *Interpreter) REPL(): every registered binary package path is
processed once. -/
def replPreimport (sc : List (String × UnivSym)) (pkgs : List String) :
    List (String × UnivSym) :=
  pkgs.foldl replPreimportStep sc

end Yaegi

namespace Yaegi

/-! ## Theorems -/

/-- Case split helper: the result of ignoreScannerError as a disjunction. -/
theorem ignoreScannerError_eq_true_iff (msg s : String) :
    ignoreScannerError msg s = true ↔ incompleteInputSig msg s := by
  unfold ignoreScannerError incompleteInputSig
  by_cases h1 : msg.endsWith "found \x27EOF\x27" = true <;>
    by_cases h2 : msg = "raw string literal not terminated" <;>
      by_cases h3 : msg.startsWith "expected operand, found \x27\x7d\x27" = true <;>
        by_cases h4 : s.endsWith "\x7d" = true <;>
          simp_all

/-- C1: for every scanner error message and line, ignoreScannerError returns
true exactly on the three incomplete-input signatures (message ends with
found EOF, equals raw string literal not terminated, or starts with expected
operand, found a closing brace while the line does not end in one), and the
REPL continues reading exactly in that case, reporting the first error
otherwise. -/
theorem ignoreScannerError_spec (msg s : String) :
    (ignoreScannerError msg s = true ↔ incompleteInputSig msg s) ∧
    (replScanAction msg s = ReplAction.continueReading ↔ incompleteInputSig msg s) ∧
    (replScanAction msg s = ReplAction.reportFirst ↔ ¬ incompleteInputSig msg s) := by
  refine ⟨ignoreScannerError_eq_true_iff msg s, ?_, ?_⟩ <;>
    unfold replScanAction <;>
      by_cases h : ignoreScannerError msg s = true
  · simp [h, (ignoreScannerError_eq_true_iff msg s).mp h]
  · have := (ignoreScannerError_eq_true_iff msg s).not
    simp [Bool.not_eq_true] at h
    simp [h]
    exact fun hc => by
      have := (ignoreScannerError_eq_true_iff msg s).mpr hc
      simp [h] at this
  · simp [h, (ignoreScannerError_eq_true_iff msg s).mp h]
  · simp [Bool.not_eq_true] at h
    simp [h]
    exact fun hc => by
      have := (ignoreScannerError_eq_true_iff msg s).mpr hc
      simp [h] at this

/-- C2: when the caller context fires before the evaluation completes,
EvalWithContext increments the interpreter run-id, closes the done channel,
and returns the zero value together with the context error, which is not of
the Panic type. -/
theorem evalWithContext_cancelled (st : InterpState)
    (evalRes : Value × Option EvalError) (ce : CtxErr) :
    (EvalWithContext st RaceWinner.ctxDone evalRes ce).1 = Value.zero ∧
    (EvalWithContext st RaceWinner.ctxDone evalRes ce).2.1 = some (EvalError.ctx ce) ∧
    (EvalWithContext st RaceWinner.ctxDone evalRes ce).2.2.id = st.id + 1 ∧
    (EvalWithContext st RaceWinner.ctxDone evalRes ce).2.2.doneClosed = true ∧
    EvalError.isPanic (EvalError.ctx ce) = false := by
  refine ⟨rfl, rfl, rfl, rfl, rfl⟩

/-- C3: when execution of the evaluated program panics without being
recovered, eval returns the zero value and a non-nil error of the Panic
type carrying the panicked value, the host call-stack addresses and the raw
stack buffer; eval returns normally instead of repropagating the panic. -/
theorem eval_panic_surfaces (r : Value) (callers stack : List Nat) :
    evalTop (ExecOutcome.panicked r) callers stack =
      (Value.zero, some (EvalError.panic r callers stack)) ∧
    (evalTop (ExecOutcome.panicked r) callers stack).2 ≠ none ∧
    EvalError.isPanic (EvalError.panic r callers stack) = true ∧
    panicPayload (EvalError.panic r callers stack) = some (r, callers, stack) := by
  refine ⟨rfl, by simp [evalTop], rfl, rfl⟩

/-- C4: the fastChan option is read as a boolean from the environment at
creation; EvalWithContext sets cancelChan to its negation, so setting
fast chan leaves cancellable channel operations disabled and unsetting it
enables them. -/
theorem fastChan_disables_cancelChan (getenv : String → String) :
    (New getenv).fastChan = parseBoolDefaultFalse (getenv "YAEGI_FAST_CHAN") ∧
    (evalWithContextEntry (New getenv)).cancelChan = !(New getenv).fastChan ∧
    ((New getenv).fastChan = true →
      (evalWithContextEntry (New getenv)).cancelChan = false) ∧
    ((New getenv).fastChan = false →
      (evalWithContextEntry (New getenv)).cancelChan = true) := by
  refine ⟨rfl, rfl, fun h => ?_, fun h => ?_⟩ <;>
    simp [evalWithContextEntry, h]

/-- Witness for C4 at two concrete environments: FAST_CHAN set to true and
unset. -/
theorem fastChan_disables_cancelChan_witness :
    (evalWithContextEntry (New (fun _ => "true"))).cancelChan = false ∧
    (evalWithContextEntry (New (fun _ => ""))).cancelChan = true :=
  ⟨(fastChan_disables_cancelChan (fun _ => "true")).2.2.1 rfl,
   (fastChan_disables_cancelChan (fun _ => "")).2.2.2 rfl⟩

/-- C5 counterexample: with the environment setting every boolean option to
1 (so both NO_RUN and the AST dot option are set), eval returns right after
rendering the AST and global type analysis is not performed, refuting the
claim that NO_RUN always lets parsing, GTA and CFG construction happen. -/
theorem noRun_astDot_skips_gta :
    (New (fun _ => "1")).noRun = true ∧
    evalPhases (New (fun _ => "1")) true true true true = [Phase.parseP, Phase.astDotP] ∧
    Phase.gtaP ∉ evalPhases (New (fun _ => "1")) true true true true ∧
    Phase.cfgP ∉ evalPhases (New (fun _ => "1")) true true true true := by
  refine ⟨rfl, rfl, ?_, ?_⟩ <;> decide

/-- C5 amended: whenever the noRun option is set, eval never calls genRun
and never runs a node, and for a file-statement root no executor closure is
generated either; however for a root that is not a file statement
(REPL-style sources without a package clause) setExec generates the
executor closures of the root CFG before the noRun return. When the AST dot
debug option is unset and parsing, global type analysis and CFG
construction all succeed, eval performs exactly parsing, GTA and CFG
construction, plus that setExec call for a non-file root and the CFG dot
rendering when that debug option is set, before returning. -/
theorem noRun_compile_only (st : InterpState) (fileRoot parseOk gtaOk cfgOk : Bool)
    (h : st.noRun = true) :
    (Phase.genRunP ∉ evalPhases st fileRoot parseOk gtaOk cfgOk ∧
     Phase.execP ∉ evalPhases st fileRoot parseOk gtaOk cfgOk) ∧
    (fileRoot = true → Phase.setExecP ∉ evalPhases st fileRoot parseOk gtaOk cfgOk) ∧
    (st.astDot = false → parseOk = true → gtaOk = true → cfgOk = true →
      evalPhases st fileRoot parseOk gtaOk cfgOk =
        [Phase.parseP, Phase.gtaP, Phase.cfgP] ++
          (if fileRoot then [] else [Phase.setExecP]) ++
          (if st.cfgDot then [Phase.cfgDotP] else [])) := by
  cases hA : st.astDot <;> cases hC : st.cfgDot <;> cases fileRoot <;>
    cases parseOk <;> cases gtaOk <;> cases cfgOk <;>
      simp_all [evalPhases]

/-- Witness for C5 at a concrete interpreter with only NO_RUN set, for a
file-statement root and for a REPL-style root. -/
theorem noRun_compile_only_witness :
    evalPhases (New (fun v => if v = "YAEGI_NO_RUN" then "1" else "")) true true true true =
      [Phase.parseP, Phase.gtaP, Phase.cfgP] ∧
    evalPhases (New (fun v => if v = "YAEGI_NO_RUN" then "1" else "")) false true true true =
      [Phase.parseP, Phase.gtaP, Phase.cfgP, Phase.setExecP] := by
  have h1 := (noRun_compile_only (New (fun v => if v = "YAEGI_NO_RUN" then "1" else ""))
    true true true true rfl).2.2 rfl rfl rfl rfl
  have h2 := (noRun_compile_only (New (fun v => if v = "YAEGI_NO_RUN" then "1" else ""))
    false true true true rfl).2.2 rfl rfl rfl rfl
  exact ⟨h1.trans (by decide), h2.trans (by decide)⟩

/-- C6: on a terminal input stream, a valid result value prints a value line
followed by the prompt, an invalid result prints only the prompt, and on a
non-terminal stream (no Stat support, Stat error, or not a character
device) nothing is printed. -/
theorem prompt_behaviour (stream : InStream) (v : Value) :
    (isTerminal stream = true → v.isValid = true →
      promptFn stream v = (": " ++ showValue v ++ "\n") ++ "> ") ∧
    (isTerminal stream = true → v.isValid = false →
      promptFn stream v = "> ") ∧
    (isTerminal stream = false → promptFn stream v = "") := by
  refine ⟨fun ht hv => ?_, fun ht hv => ?_, fun ht => ?_⟩
  · simp [promptFn, ht, hv]
  · simp [promptFn, ht, hv]
  · simp [promptFn, ht]

/-- Witness for C6: a terminal stream with a valid value, with an invalid
value, and a non-terminal stream. -/
theorem prompt_behaviour_witness :
    promptFn ⟨true, true, true⟩ (Value.host "42") = (": " ++ showValue (Value.host "42") ++ "\n") ++ "> " ∧
    promptFn ⟨true, true, true⟩ Value.zero = "> " ∧
    promptFn ⟨true, true, false⟩ (Value.host "42") = "" :=
  ⟨(prompt_behaviour ⟨true, true, true⟩ (Value.host "42")).1 rfl rfl,
   (prompt_behaviour ⟨true, true, true⟩ Value.zero).2.1 rfl rfl,
   (prompt_behaviour ⟨true, true, false⟩ (Value.host "42")).2.2 rfl⟩

/-- C7: a source file whose first two bytes are the shebang marker has that
marker rewritten to a line comment marker before parsing, the rest of the
file being kept unchanged, so its first line evaluates as a line comment. -/
theorem shebang_rewritten (s : List Char) (h : hasPrefixCL s shebangCL = true) :
    driverLoadSource s = some (lineCommentCL ++ s.drop 2) := by
  match s with
  | [] => simp [hasPrefixCL, shebangCL] at h
  | [c] => simp [hasPrefixCL, shebangCL] at h
  | c :: d :: rest =>
    simp [hasPrefixCL, shebangCL] at h
    obtain ⟨rfl, rfl⟩ := h
    simp [driverLoadSource, replaceFirstCL, hasPrefixCL, shebangCL, lineCommentCL]

/-- Witness for C7 at a concrete script file. -/
theorem shebang_rewritten_witness :
    driverLoadSource ("#!yaegi\nx := 1".toList) =
      some (lineCommentCL ++ ("#!yaegi\nx := 1".toList).drop 2) :=
  shebang_rewritten ("#!yaegi\nx := 1".toList) (by decide)

/-- The shebang inspection of the driver panics exactly on a file of fewer
than two bytes. -/
theorem driverLoadSource_eq_none_iff (s : List Char) :
    driverLoadSource s = none ↔ s.length < 2 := by
  unfold driverLoadSource
  by_cases h : s.length < 2
  · simp [h]
  · by_cases hp : hasPrefixCL s shebangCL = true <;> simp [h, hp]

/-- C8 counterexample: an unreadable input file makes the driver exit with
code 1, not 2 as the claim states, and an evaluation error leaves the exit
code at 0, not 1. -/
theorem driver_exit_codes_cex :
    driverExitCode true false "x := 1".toList true false = 1 ∧
    driverExitCode true false "x := 1".toList true false ≠ 2 ∧
    driverExitCode true true "x := 1".toList false false = 0 ∧
    driverExitCode true true "x := 1".toList false false ≠ 1 := by
  refine ⟨rfl, by decide, ?_, ?_⟩ <;> decide

/-- C8 amended: the driver exits with code 0 on success and also on an
evaluation error (which is only printed), with code 1 on unreadable input,
and with code 2 exactly when a readable input file of fewer than two bytes
makes the shebang inspection panic, the runtime status of an unrecovered
panic. -/
theorem driver_exit_codes (hasArgs readOk : Bool) (content : List Char)
    (evalOk interactive : Bool) :
    driverExitCode hasArgs readOk content evalOk interactive =
      (if hasArgs && !readOk then 1
       else if hasArgs && (driverLoadSource content).isNone then 2 else 0) ∧
    (driverExitCode hasArgs readOk content evalOk interactive = 2 ↔
      hasArgs = true ∧ readOk = true ∧ content.length < 2) := by
  constructor
  · cases hasArgs <;> cases readOk <;>
      cases h : driverLoadSource content <;>
        simp [driverExitCode, h]
  · cases hasArgs <;> cases readOk <;>
      cases h : driverLoadSource content <;>
        simp [driverExitCode, h, ← driverLoadSource_eq_none_iff, Option.isNone]

/-! ### Association list lemmas -/

/-- Lookup after insertion. -/
theorem alistLookup_insert {α : Type} (l : List (String × α)) (k k' : String) (a : α) :
    alistLookup (alistInsert l k a) k' = if k = k' then some a else alistLookup l k' := by
  induction l with
  | nil => simp [alistInsert, alistLookup]
  | cons hd tl ih =>
    obtain ⟨k0, a0⟩ := hd
    by_cases h0 : k0 = k
    · subst h0
      by_cases h1 : k0 = k' <;> simp [alistInsert, alistLookup, h1]
    · by_cases h1 : k0 = k'
      · subst h1
        have hkk : ¬ k = k0 := fun he => h0 he.symm
        simp [alistInsert, alistLookup, h0, hkk]
      · simp [alistInsert, alistLookup, h0, h1, ih]

/-- Lookup after insertion under a different key. -/
theorem alistLookup_insert_ne {α : Type} (l : List (String × α)) (k k' : String) (a : α)
    (h : k ≠ k') : alistLookup (alistInsert l k a) k' = alistLookup l k' := by
  simp [alistLookup_insert, h]

/-- On a list with distinct keys, a member binding is what lookup returns. -/
theorem alistLookup_of_mem {α : Type} :
    ∀ (l : List (String × α)) (k : String) (a : α), keysNodup l → (k, a) ∈ l →
      alistLookup l k = some a
  | [], _, _, _, hmem => absurd hmem (List.not_mem_nil _)
  | (k0, a0) :: tl, k, a, hnd, hmem => by
    have hnd0 : k0 ∉ tl.map Prod.fst ∧ keysNodup tl := by
      simpa [keysNodup] using hnd
    rcases List.mem_cons.mp hmem with heq | hmem'
    · obtain ⟨rfl, rfl⟩ := Prod.mk.injEq .. ▸ heq
      simp [alistLookup]
    · have hk0 : k0 ≠ k := fun he => hnd0.1 (he ▸ List.mem_map.mpr ⟨(k, a), hmem', rfl⟩)
      simp [alistLookup, hk0]
      exact alistLookup_of_mem tl k a hnd0.2 hmem'

/-- Lookup of an absent key. -/
theorem alistLookup_of_not_mem {α : Type} :
    ∀ (l : List (String × α)) (k : String), k ∉ l.map Prod.fst → alistLookup l k = none
  | [], _, _ => rfl
  | (k0, a0) :: tl, k, h => by
    have hk0 : k0 ≠ k := fun he => h (by simp [he])
    have htl : k ∉ tl.map Prod.fst := fun hm => h (by simp [hm])
    simp [alistLookup, hk0]
    exact alistLookup_of_not_mem tl k htl

/-- Lookup through the merge loop of Use: a symbol present in the merged
map wins, any other symbol keeps its previous binding. -/
theorem mergeSyms_lookup :
    ∀ (v m : List (String × Value)) (s : String), keysNodup v →
      alistLookup (mergeSyms m v) s = optOr (alistLookup v s) (alistLookup m s)
  | [], m, s, _ => by simp [mergeSyms, alistLookup, optOr]
  | (s0, v0) :: tl, m, s, hnd => by
    have hnd0 : s0 ∉ tl.map Prod.fst ∧ keysNodup tl := by
      simpa [keysNodup] using hnd
    have hstep : mergeSyms m ((s0, v0) :: tl) = mergeSyms (alistInsert m s0 v0) tl := rfl
    rw [hstep, mergeSyms_lookup tl (alistInsert m s0 v0) s hnd0.2]
    by_cases h : s0 = s
    · subst h
      rw [alistLookup_of_not_mem tl s0 hnd0.1]
      simp [alistLookup, optOr, alistLookup_insert]
    · simp [alistLookup, h, optOr, alistLookup_insert_ne m s0 s v0 h]

/-! ### Lemmas on the Use fold -/

/-- The merge loop leaves the registry untouched at the hooks path and at
every path absent from the input map. -/
theorem useFold_binPkg_untouched :
    ∀ (values : List (String × List (String × Value))) (st : UseState) (p : String),
      (p = hooksPath ∨ p ∉ values.map Prod.fst) →
      alistLookup (values.foldl useEntry st).binPkg p = alistLookup st.binPkg p
  | [], _, _, _ => rfl
  | (k, v) :: rest, st, p, h => by
    have hrest : p = hooksPath ∨ p ∉ rest.map Prod.fst := by
      rcases h with h | h
      · exact Or.inl h
      · exact Or.inr fun hm => h (by simp [hm])
    have hstep : ((k, v) :: rest).foldl useEntry st = rest.foldl useEntry (useEntry st (k, v)) := rfl
    rw [hstep, useFold_binPkg_untouched rest (useEntry st (k, v)) p hrest]
    unfold useEntry
    by_cases hk : k = hooksPath
    · simp [hk]
    · have hkp : k ≠ p := by
        rcases h with h | h
        · exact fun he => hk (he.trans h)
        · intro he
          subst he
          exact h (by simp)
      simp [hk]
      exact alistLookup_insert_ne st.binPkg k p _ hkp

/-- The merge loop only appends to the parsed hooks. -/
theorem useFold_hooks_preserved :
    ∀ (values : List (String × List (String × Value))) (st : UseState)
      (v : List (String × Value)), v ∈ st.hooksParsed →
      v ∈ (values.foldl useEntry st).hooksParsed
  | [], _, _, h => h
  | (k, w) :: rest, st, v, h => by
    have hstep : ((k, w) :: rest).foldl useEntry st = rest.foldl useEntry (useEntry st (k, w)) := rfl
    rw [hstep]
    apply useFold_hooks_preserved rest
    unfold useEntry
    by_cases hk : k = hooksPath <;> simp [hk, h]

/-- Every entry under the hooks path ends up among the parsed hooks. -/
theorem useFold_hooks_mem :
    ∀ (values : List (String × List (String × Value))) (st : UseState)
      (v : List (String × Value)), (hooksPath, v) ∈ values →
      v ∈ (values.foldl useEntry st).hooksParsed
  | [], _, _, h => absurd h (List.not_mem_nil _)
  | (k, w) :: rest, st, v, h => by
    have hstep : ((k, w) :: rest).foldl useEntry st = rest.foldl useEntry (useEntry st (k, w)) := rfl
    rw [hstep]
    rcases List.mem_cons.mp h with heq | hmem
    · obtain ⟨rfl, rfl⟩ := Prod.mk.injEq .. ▸ heq.symm
      apply useFold_hooks_preserved
      unfold useEntry
      simp
    · exact useFold_hooks_mem rest (useEntry st (k, w)) v hmem

/-- Lookup of a registered package after the merge loop: its previous map
merged with the input entry. -/
theorem useFold_binPkg_merged :
    ∀ (values : List (String × List (String × Value))) (st : UseState)
      (k : String) (v : List (String × Value)),
      keysNodup values → (k, v) ∈ values → k ≠ hooksPath →
      alistLookup (values.foldl useEntry st).binPkg k =
        some (mergeSyms ((alistLookup st.binPkg k).getD []) v)
  | [], _, _, _, _, hmem, _ => absurd hmem (List.not_mem_nil _)
  | (k0, v0) :: rest, st, k, v, hnd, hmem, hkh => by
    have hnd0 : k0 ∉ rest.map Prod.fst ∧ keysNodup rest := by
      simpa [keysNodup] using hnd
    have hstep : ((k0, v0) :: rest).foldl useEntry st = rest.foldl useEntry (useEntry st (k0, v0)) := rfl
    rw [hstep]
    rcases List.mem_cons.mp hmem with heq | hmem'
    · obtain ⟨rfl, rfl⟩ := Prod.mk.injEq .. ▸ heq
      rw [useFold_binPkg_untouched rest (useEntry st (k, v)) k (Or.inr hnd0.1)]
      unfold useEntry
      simp only [hkh, if_false]
      rw [alistLookup_insert]
      simp
    · have hk0k : k0 ≠ k := fun he =>
        hnd0.1 (he ▸ List.mem_map.mpr ⟨(k, v), hmem', rfl⟩)
      rw [useFold_binPkg_merged rest (useEntry st (k0, v0)) k v hnd0.2 hmem' hkh]
      unfold useEntry
      by_cases hk0 : k0 = hooksPath
      · simp [hk0]
      · simp only [hk0, if_false]
        rw [alistLookup_insert_ne st.binPkg k0 k _ hk0k]

/-- C9 counterexample: calling Use with an export map containing only the
path fmt rewrites the pre-existing symbol Print of the already registered
package log (fixStdio), refuting the claim that existing symbols under
other names or paths are left unchanged. -/
theorem use_fixStdio_cex :
    lookupSym c9Registry.binPkg "log" "Print" = some (Value.host "log.Print") ∧
    lookupSym (Use c9Registry [("fmt", [("Println", Value.host "fmt.Println")])]).binPkg
      "log" "Print" = some (Value.virt "log.Print") ∧
    Value.virt "log.Print" ≠ Value.host "log.Print" := by
  refine ⟨rfl, rfl, by decide⟩

/-- C9 amended: for a Use call whose export map has distinct package paths
and distinct symbol names and does not contain the path fmt (in which case
fixStdio would additionally redefine stream-bound symbols of the fmt, flag,
log and os packages), entries under the hooks path are parsed as hooks and
never added to the registry, every other entry is merged with
same-path-same-name overwrite, and all other symbols are unchanged. -/
theorem use_merges (st : UseState) (values : List (String × List (String × Value)))
    (hnd : keysNodup values)
    (hv : ∀ kv ∈ values, keysNodup kv.2)
    (hfmt : "fmt" ∉ values.map Prod.fst) :
    ((∀ v, (hooksPath, v) ∈ values → v ∈ (Use st values).hooksParsed) ∧
      alistLookup (Use st values).binPkg hooksPath = alistLookup st.binPkg hooksPath) ∧
    (∀ k v s val, (k, v) ∈ values → k ≠ hooksPath → (s, val) ∈ v →
      lookupSym (Use st values).binPkg k s = some val) ∧
    (∀ k v s, (k, v) ∈ values → k ≠ hooksPath → s ∉ v.map Prod.fst →
      lookupSym (Use st values).binPkg k s = lookupSym st.binPkg k s) ∧
    (∀ p, p ∉ values.map Prod.fst →
      alistLookup (Use st values).binPkg p = alistLookup st.binPkg p) := by
  have hany : values.any (fun kv => kv.1 == "fmt") = false := by
    rw [List.any_eq_false]
    intro kv hkv
    simp only [beq_iff_eq]
    exact fun he => hfmt (he ▸ List.mem_map.mpr ⟨kv, hkv, rfl⟩)
  have hUse : Use st values = values.foldl useEntry st := by
    unfold Use
    simp [hany]
  rw [hUse]
  refine ⟨⟨fun v hv' => useFold_hooks_mem values st v hv', ?_⟩, ?_, ?_, ?_⟩
  · exact useFold_binPkg_untouched values st hooksPath (Or.inl rfl)
  · intro k v s val hkv hkh hsv
    unfold lookupSym
    rw [useFold_binPkg_merged values st k v hnd hkv hkh]
    simp only [Option.some_bind]
    rw [mergeSyms_lookup v _ s (hv (k, v) hkv)]
    rw [alistLookup_of_mem v s val (hv (k, v) hkv) hsv]
    rfl
  · intro k v s hkv hkh hs
    unfold lookupSym
    rw [useFold_binPkg_merged values st k v hnd hkv hkh]
    simp only [Option.some_bind]
    rw [mergeSyms_lookup v _ s (hv (k, v) hkv)]
    rw [alistLookup_of_not_mem v s hs]
    cases hb : alistLookup st.binPkg k <;> simp [hb, optOr, alistLookup]
  · intro p hp
    exact useFold_binPkg_untouched values st p (Or.inr hp)

/-- Witness for C9 at a concrete registry and export map. -/
theorem use_merges_witness :
    lookupSym ((Use { binPkg := [("os", [("Getenv", Value.host "os.Getenv")])], hooksParsed := [] }
      [("math", [("Pi", Value.host "math.Pi")])]).binPkg) "math" "Pi" =
      some (Value.host "math.Pi") :=
  (use_merges { binPkg := [("os", [("Getenv", Value.host "os.Getenv")])], hooksParsed := [] }
    [("math", [("Pi", Value.host "math.Pi")])] (by decide) (by decide) (by decide)).2.1
    "math" [("Pi", Value.host "math.Pi")] "Pi" (Value.host "math.Pi")
    (by decide) (by decide) (by decide)

/-! ### Lemmas on the REPL preimport fold -/

/-- The preimport loop leaves every name that no processed package maps to
untouched in the universe scope. -/
theorem replPreimport_untouched :
    ∀ (pkgs : List String) (sc : List (String × UnivSym)) (n : String),
      (∀ k ∈ pkgs, goodReplName k ≠ some n) →
      alistLookup (replPreimport sc pkgs) n = alistLookup sc n
  | [], _, _, _ => rfl
  | k0 :: rest, sc, n, h => by
    have hstep : replPreimport sc (k0 :: rest) = replPreimport (replPreimportStep sc k0) rest := rfl
    rw [hstep, replPreimport_untouched rest _ n (fun k hk => h k (List.mem_cons_of_mem _ hk))]
    unfold replPreimportStep
    cases hg : goodReplName k0 with
    | none => rfl
    | some m =>
      have hmn : m ≠ n := fun he => h k0 (List.mem_cons_self _ _) (hg.trans (by rw [he]))
      exact alistLookup_insert_ne sc m n _ hmn

/-- A package whose good name is not produced by any other processed
package is bound to that name by the preimport loop. -/
theorem replPreimport_mem :
    ∀ (pkgs : List String) (sc : List (String × UnivSym)) (k n : String),
      k ∈ pkgs → goodReplName k = some n →
      (∀ k' ∈ pkgs, k' ≠ k → goodReplName k' ≠ some n) →
      alistLookup (replPreimport sc pkgs) n = some (UnivSym.pkgSym k)
  | [], _, _, _, hmem, _, _ => absurd hmem (List.not_mem_nil _)
  | k0 :: rest, sc, k, n, hmem, hg, huniq => by
    have hstep : replPreimport sc (k0 :: rest) = replPreimport (replPreimportStep sc k0) rest := rfl
    rw [hstep]
    by_cases hkr : k ∈ rest
    · exact replPreimport_mem rest _ k n hkr hg
        (fun k' h' => huniq k' (List.mem_cons_of_mem _ h'))
    · have hk0 : k0 = k := by
        rcases List.mem_cons.mp hmem with h | h
        · exact h.symm
        · exact absurd h hkr
      subst hk0
      have hrest : ∀ k' ∈ rest, goodReplName k' ≠ some n := fun k' h' =>
        huniq k' (List.mem_cons_of_mem _ h') (fun he => hkr (he ▸ h'))
      rw [replPreimport_untouched rest _ n hrest]
      unfold replPreimportStep
      rw [hg]
      simp [alistLookup_insert]

/-- C10: on REPL entry, every registered binary package whose path yields a
valid identifier base name not equal to rand, scanner, template or pprof is
preimported into the universe scope under that name as a binary package
symbol carrying its path (stated for a name no other registered package
maps to); names no package maps to are untouched, and a package whose base
name is skipped or invalid is not preimported. -/
theorem repl_preimport (sc : List (String × UnivSym)) (pkgs : List String) :
    (∀ k n, k ∈ pkgs → goodReplName k = some n →
      (∀ k' ∈ pkgs, k' ≠ k → goodReplName k' ≠ some n) →
      alistLookup (replPreimport sc pkgs) n = some (UnivSym.pkgSym k)) ∧
    (∀ n, (∀ k ∈ pkgs, goodReplName k ≠ some n) →
      alistLookup (replPreimport sc pkgs) n = alistLookup sc n) ∧
    (∀ k, identBase k ∈ replSkipNames → goodReplName k = none) ∧
    (∀ k, identBase k = "" → goodReplName k = none) := by
  refine ⟨fun k n hk hg hu => replPreimport_mem pkgs sc k n hk hg hu,
    fun n h => replPreimport_untouched pkgs sc n h, fun k h => ?_, fun k h => ?_⟩
  · show (if identBase k = "" ∨ identBase k ∈ replSkipNames then none else some (identBase k)) = none
    split
    · rfl
    · next hcond => exact absurd (Or.inr h) hcond
  · show (if identBase k = "" ∨ identBase k ∈ replSkipNames then none else some (identBase k)) = none
    split
    · rfl
    · next hcond => exact absurd (Or.inl h) hcond

/-- Witness for C10 at a concrete registry: fmt is preimported under its
base name, math/rand has the skipped base name rand and is not. -/
theorem repl_preimport_witness :
    alistLookup (replPreimport [] ["fmt", "math/rand"]) "fmt" =
      some (UnivSym.pkgSym "fmt") ∧
    alistLookup (replPreimport [] ["fmt", "math/rand"]) "rand" = none ∧
    goodReplName "math/rand" = none :=
  ⟨(repl_preimport [] ["fmt", "math/rand"]).1 "fmt" "fmt" (by decide) (by decide) (by decide),
   (repl_preimport [] ["fmt", "math/rand"]).2.1 "rand" (by decide),
   (repl_preimport [] ["fmt", "math/rand"]).2.2.1 "math/rand" (by decide)⟩

end Yaegi
